import Mathlib

/-!
Shallow embedding of `dumper.py` (class `ElasticDumper`): an Elasticsearch
dump/restore tool.  Documents are JSON values; the remote store is modelled
as an association list of indices, each holding a mapping and a list of
documents; the filesystem effects of `dump`/`restore` are modelled as
explicit data (archives, extracted json files).  Generators are modelled as
the lists of values they yield, pure functions mirror the source line by
line, and external collaborators (the Elasticsearch client and
`elasticsearch.helpers.bulk`) are modelled from the contract stated in the
design document.
-/

/-- JSON values, as produced by `json.load`/`json.dump` in the source. -/
inductive Json where
  | null : Json
  | bool (b : Bool) : Json
  | num (n : Int) : Json
  | str (s : String) : Json
  | arr (xs : List Json) : Json
  | obj (kvs : List (String × Json)) : Json

/-- Python `key in d` / `d[key]` on a JSON object: first binding of the key
(dict keys are unique in Python, so first = only). Non-objects have no keys. -/
def Json.getKey : Json → String → Option Json
  | .obj kvs, k => go kvs k
  | _, _ => none
where go : List (String × Json) → String → Option Json
  | [], _ => none
  | (k', v) :: rest, k => if k' = k then some v else go rest k

/-- Python `'key' in d`. -/
def Json.hasKey (d : Json) (k : String) : Bool :=
  (d.getKey k).isSome

/-- One Elasticsearch hit record: store-assigned metadata entries
(`_index`, `_type`, `_id`, ...) plus the `_source` payload. -/
structure Hit where
  meta : List (String × Json)
  source : Json

/-- The full hit record as a JSON object, the way the store serves it:
the metadata entries followed by the `_source` entry. -/
def Hit.raw (h : Hit) : Json :=
  Json.obj (h.meta ++ [("_source", h.source)])

/-- One page of a scroll response: `page['hits']['total']['value']` and
`page['hits']['hits']`.  The scroll id is threaded to the store and never
inspected, so it is not part of the model. -/
structure Page where
  total : Nat
  hits : List Hit

/-- The body of `_scroll`'s `while` loop, entered with the current `page`
and the not-yet-served remainder of the scripted responses: it re-computes
`scroll_size` from the returned page's hit count, yields the page when that
count is positive, and fetches the next page.  The loop exits as soon as a
returned page has no hits. -/
def scrollLoop : Page → List Page → List Page
  | page, rest =>
    if page.hits.length = 0 then []
    else
      page :: (match rest with
        | [] => []
        | p :: ps => scrollLoop p ps)

/-- `ElasticDumper._scroll` over a scripted store: `script` is the sequence
of responses the store would serve (the initial `search` response followed
by the successive `scroll` responses).  `scroll_size` is initialised to the
first response's total-match count, so the `while scroll_size > 0` loop is
entered only when that total is positive. -/
def _scroll (script : List Page) : List Page :=
  match script with
  | [] => []
  | first :: rest => if 0 < first.total then scrollLoop first rest else []

/-- What `iterate_data` yields per hit: the bare `_source` payload when
`raw is False`, the full hit record otherwise. -/
def hitYield (raw : Bool) (h : Hit) : Json :=
  if raw = false then h.source else h.raw

/-- The `for page in self._scroll(...)` loop of `iterate_data`: breaks on an
empty page, otherwise yields each document of the page. -/
def iterLoop (raw : Bool) : List Page → List Json
  | [] => []
  | p :: ps =>
    if p.hits.length = 0 then []
    else p.hits.map (hitYield raw) ++ iterLoop raw ps

/-- `ElasticDumper.iterate_data` over a scripted store: the list of
documents the generator yields. -/
def iterate_data (script : List Page) (raw : Bool) : List Json :=
  iterLoop raw (_scroll script)

/-- The mutable cursor state of an `ElasticDumper` instance:
`self._index` and `self._doc_type`. -/
structure DumperState where
  _index : String
  _doc_type : String

/-- Per-index server-side data: the (optional) mapping and the stored
documents, in insertion order. -/
structure IndexData where
  mapping : Option Json
  docs : List Json

/-- The remote store: the indices it holds, as an association list. -/
structure ESState where
  indices : List (String × IndexData)

/-- Look an index up in the store. -/
def esLookup : List (String × IndexData) → String → Option IndexData
  | [], _ => none
  | (j, d) :: rest, i => if j = i then some d else esLookup rest i

/-- `self._es.indices.exists(index_name)`. -/
def esExists (es : ESState) (i : String) : Bool :=
  (esLookup es.indices i).isSome

/-- The documents currently stored in index `i` (empty when the index does
not exist). -/
def docsOf (es : ESState) (i : String) : List Json :=
  match esLookup es.indices i with
  | some d => d.docs
  | none => []

/-- `self._es.indices.create(index_name)`: registers a fresh index with no
mapping and no documents. -/
def esCreate (es : ESState) (i : String) : ESState :=
  ⟨es.indices ++ [(i, ⟨none, []⟩)]⟩

/-- `self._es.indices.put_mapping(...)`: sets the mapping of index `i`,
leaving its documents untouched. -/
def put_mapping (es : ESState) (i : String) (m : Json) : ESState :=
  ⟨go es.indices i m⟩
where go : List (String × IndexData) → String → Json → List (String × IndexData)
  | [], _, _ => []
  | (k, d) :: rest, i, m =>
    if k = i then (k, ⟨some m, d.docs⟩) :: rest else (k, d) :: go rest i m

/-- `ElasticDumper.create_index`: skips creation (and mapping application)
entirely when the index already exists; otherwise, when
`create_if_not_exists` is set, creates it and applies the mapping if one was
given.  In every case it then assigns `self._index` and `self._doc_type`. -/
def create_index (es : ESState) (st : DumperState) (index_name doc_type : String)
    (create_if_not_exists : Bool) (mapping : Option Json) : ESState × DumperState :=
  let es' :=
    if esExists es index_name then es
    else if create_if_not_exists then
      match mapping with
      | some m => put_mapping (esCreate es index_name) index_name m
      | none => esCreate es index_name
    else es
  (es', ⟨index_name, doc_type⟩)

/-- `ElasticDumper.get_mapping`, as the JSON object later written to
`mapping.json` (the store's answer for the index, `null` standing for
whatever a missing index would return). -/
def get_mapping (es : ESState) (i : String) : Json :=
  match esLookup es.indices i with
  | some d => match d.mapping with
    | some m => m
    | none => Json.null
  | none => Json.null

/-- `iterate_data` as invoked on an `ElasticDumper` whose state is `st`:
the store serves the script attached to `self._index`. -/
def iterate_data_st (store : String → List Page) (st : DumperState) (raw : Bool) :
    List Json :=
  iterate_data (store st._index) raw

/-- Decimal digit characters of a natural number, most significant first
(the digits of Python's `str(n)` / `'%d' % n`).  The recursion is fuelled
with `n + 1`, always enough since a number has at most `n + 1` digits. -/
def decRepr (n : Nat) : List Char := go (n + 1) n
where go : Nat → Nat → List Char
  | 0, _ => []
  | fuel + 1, n =>
    if n < 10 then [Nat.digitChar n]
    else go fuel (n / 10) ++ [Nat.digitChar (n % 10)]

/-- Python's `f'{n:06d}'`: the decimal representation of `n` left-padded
with zeros to at least six characters (longer numbers are not truncated). -/
def pad6 (n : Nat) : String :=
  ⟨List.replicate (6 - (decRepr n).length) '0' ++ decRepr n⟩

/-- One chunk archive on disk, as written by `_store`: the zip file's name,
the name of the single json file it contains, and the document array that
json file holds. -/
structure Archive where
  zipName : String
  entryName : String
  docs : List Json

/-- The nested `_store` helper of `dump`: writes `data_{count:06d}.json`
holding the buffer, zips it into `data_{count:06d}.zip` under the same arc
name, and removes the temporary json file, so the archive is the only
durable artifact. -/
def _store (buffer : List Json) (count : Nat) : Archive :=
  ⟨"data_" ++ pad6 count ++ ".zip", "data_" ++ pad6 count ++ ".json", buffer⟩

/-- The buffering loop of `dump`: appends each streamed document to the
buffer, flushes the buffer as a new chunk (incrementing `count`) whenever it
has reached `docs_per_file` documents, and flushes any non-empty remaining
buffer once the stream is exhausted. -/
def dumpLoop (docs_per_file : Nat) : List Json → List Json → Nat → List Archive
  | [], buffer, count =>
    if 0 < buffer.length then [ _store buffer (count + 1)] else []
  | d :: ds, buffer, count =>
    let buffer' := buffer ++ [d]
    if docs_per_file ≤ buffer'.length then
      _store buffer' (count + 1) :: dumpLoop docs_per_file ds [] (count + 1)
    else
      dumpLoop docs_per_file ds buffer' count

/-- The on-disk layout `dump` leaves behind: `mapping.json` plus the chunk
archives in the `data` subdirectory. -/
structure DumpDir where
  mapping : Json
  archives : List Archive

/-- `ElasticDumper.dump`: creates the directories, snapshots the mapping of
`self._index` into `mapping.json`, and chunks the document stream. -/
def dump (store : String → List Page) (es : ESState) (st : DumperState)
    (docs_per_file : Nat) (raw : Bool) : DumpDir :=
  ⟨get_mapping es st._index, dumpLoop docs_per_file (iterate_data_st store st raw) [] 0⟩

/-- The state of a dump directory as `restore` finds it: whether the dump
directory and its `data` subdirectory exist, the content of `mapping.json`
(if present), the zip archives in the data directory, and the `.json` files
in the data directory (name and parsed content). -/
structure FS where
  dumpExists : Bool
  dataExists : Bool
  mappingFile : Option Json
  zips : List Archive
  jsons : List (String × List Json)

/-- The dump directory produced by a completed `dump`, as a filesystem
state: both directories exist, `mapping.json` is present, the archives are
the chunks, and no stray `.json` file is left (each temporary json file was
removed right after being zipped). -/
def fsOfDump (d : DumpDir) : FS :=
  ⟨true, true, some d.mapping, d.archives, []⟩

/-- Insert `x` into `l` in front of the first element it is `le`-below
(helper of `sortBy`). -/
def insertSorted (le : α → α → Bool) (x : α) : List α → List α
  | [] => [x]
  | y :: ys => if le x y then x :: y :: ys else y :: insertSorted le x ys

/-- Insertion sort: the model of Python's `sorted(...)` (any comparison
sort yields the same result on the distinct keys arising here). -/
def sortBy (le : α → α → Bool) : List α → List α
  | [] => []
  | x :: xs => insertSorted le x (sortBy le xs)

/-- `sorted([f for f in os.listdir(data_path) if ... f.endswith('.zip')])`:
the zip archives of the data directory, sorted by filename. -/
def sortZips (zips : List Archive) : List Archive :=
  sortBy (fun a b => decide (a.zipName ≤ b.zipName)) zips

/-- `sorted([f for f in os.listdir(data_path) if ... f.endswith('.json')])`:
the `.json` files of the data directory, sorted by filename. -/
def sortJsons (jsons : List (String × List Json)) : List (String × List Json) :=
  sortBy (fun a b => decide (a.1 ≤ b.1)) jsons

/-- `zip_file.extractall(data_path)`: materialises the archive's json entry
in the data directory, overwriting any existing file of that name. -/
def extractInto (jsons : List (String × List Json)) (z : Archive) :
    List (String × List Json) :=
  (jsons.filter (fun e => e.1 ≠ z.entryName)) ++ [(z.entryName, z.docs)]

/-- The nested `_gen_bulk` helper of `restore`: an item that carries a
`_source` key (the shape of a raw-mode hit record) is reused verbatim as
the write request; any other item is wrapped as
`{'_index': index_name, '_type': doc_type, '_source': item}`. -/
def _gen_bulk (data : List Json) (index_name doc_type : String) : List Json :=
  match data with
  | [] => []
  | d :: ds =>
    (if d.hasKey "_source" then d
     else Json.obj [("_index", .str index_name), ("_type", .str doc_type), ("_source", d)])
      :: _gen_bulk ds index_name doc_type

/-- `elasticsearch.helpers.bulk`, modelled from the design document's
contract for the remote store: each write request names its target
collection in `_index` and carries its payload in `_source`; applying it
appends the payload to that collection (auto-creating it on first write).
A request that names no target collection writes to no collection. -/
def bulkApply (es : ESState) (reqs : List Json) : ESState :=
  reqs.foldl
    (fun es r =>
      match r.getKey "_index", r.getKey "_source" with
      | some (.str i), some p => ⟨esAppend es.indices i p⟩
      | _, _ => es)
    es
where esAppend : List (String × IndexData) → String → Json → List (String × IndexData)
  | [], i, p => [(i, ⟨none, [p]⟩)]
  | (j, d) :: rest, i, p =>
    if j = i then (j, ⟨d.mapping, d.docs ++ [p]⟩) :: rest
    else (j, d) :: esAppend rest i p

/-- The body of `restore`'s `for f in files` loop, for one archive: extract
it into the data directory, list every `.json` file now present (sorted by
name), bulk-load each one and delete it.  Returns the bulk batches loaded
(in order) and the `.json` files remaining afterwards. -/
def restoreStep (z : Archive) (jsons : List (String × List Json)) :
    List (List Json) × List (String × List Json) :=
  let jsons1 := extractInto jsons z
  let jfs := sortJsons jsons1
  (jfs.map (fun jf => jf.2),
   jsons1.filter (fun e => ((jfs.map (fun jf => jf.1)).contains e.1) = false))

/-- `restore`'s whole `for f in files` loop: the bulk batches loaded, in
order, and the final `.json` files of the data directory. -/
def restoreLoop : List Archive → List (String × List Json) →
    List (List Json) × List (String × List Json)
  | [], jsons => ([], jsons)
  | z :: zs, jsons =>
    let s := restoreStep z jsons
    let r := restoreLoop zs s.2
    (s.1 ++ r.1, r.2)

/-- The `.json` files present in the data directory at the start of each
iteration of `restore`'s `for f in files` loop. -/
def restoreStates : List Archive → List (String × List Json) →
    List (List (String × List Json))
  | [], _ => []
  | z :: zs, jsons => jsons :: restoreStates zs (restoreStep z jsons).2

/-- The distinct failures `restore` raises before loading any data. -/
inductive RestoreError where
  | notExistingDumpPath : RestoreError
  | notExistingDataPath : RestoreError
  | missingMappingFile : RestoreError
  | noZipFiles : RestoreError

/-- `ElasticDumper.restore`: checks the dump and data directories exist,
loads `mapping.json`, creates the target index with that mapping, lists the
zip archives sorted by filename (raising when there are none), and replays
every archive through `_gen_bulk` and the bulk writer.  Returns the final
store, the dumper state, the write-request batches submitted, and the
restored document count. -/
def restore (fs : FS) (es : ESState) (st : DumperState)
    (index_name doc_type : String) :
    Except RestoreError (ESState × DumperState × List (List Json) × Nat) :=
  if fs.dumpExists = false then .error .notExistingDumpPath
  else if fs.dataExists = false then .error .notExistingDataPath
  else
    match fs.mappingFile with
    | none => .error .missingMappingFile
    | some mapping =>
      let p := create_index es st index_name doc_type true (some mapping)
      let files := sortZips fs.zips
      if files.length = 0 then .error .noZipFiles
      else
        let r := restoreLoop files fs.jsons
        let requests := r.1.map (fun b => _gen_bulk b index_name doc_type)
        let es2 := requests.foldl bulkApply p.1
        .ok (es2, p.2, requests, (r.1.map (fun b => b.length)).sum)

/-! ### Lemmas about the scroll loop and the document stream -/

/-- The while-loop of `_scroll` yields exactly the longest prefix of the
scripted responses whose pages have hit records. -/
theorem scrollLoop_eq_takeWhile (rest : List Page) :
    ∀ page, scrollLoop page rest =
      (page :: rest).takeWhile (fun p => p.hits.length != 0) := by
  induction rest with
  | nil =>
    intro page
    simp only [scrollLoop, List.takeWhile]
    by_cases h : page.hits.length = 0
    · have hb : (page.hits.length != 0) = false := by simpa using h
      simp [h, hb]
    · have hb : (page.hits.length != 0) = true := by simpa using h
      simp [h, hb]
  | cons q qs ih =>
    intro page
    simp only [scrollLoop, List.takeWhile]
    by_cases h : page.hits.length = 0
    · have hb : (page.hits.length != 0) = false := by simpa using h
      simp [h, hb]
    · have hb : (page.hits.length != 0) = true := by simpa using h
      rw [ih q]
      simp only [List.takeWhile, hb, if_neg h]

theorem takeWhile_all_append {p : α → Bool} {l : List α} {z : α}
    (hl : ∀ x ∈ l, p x = true) (hz : p z = false) :
    (l ++ [z]).takeWhile p = l := by
  induction l with
  | nil => simp [List.takeWhile, hz]
  | cons x xs ih =>
    have hx := hl x (by simp)
    simp only [List.cons_append, List.takeWhile, hx]
    simp [ih (fun y hy => hl y (by simp [hy]))]

/-- When every page handed to `iterate_data`'s loop has hit records, the
break never fires and the loop yields each page's documents in order. -/
theorem iterLoop_flatMap (raw : Bool) (pages : List Page)
    (h : ∀ p ∈ pages, p.hits.length ≠ 0) :
    iterLoop raw pages = pages.flatMap (fun p => p.hits.map (hitYield raw)) := by
  induction pages with
  | nil => rfl
  | cons p ps ih =>
    have hp := h p (by simp)
    simp only [iterLoop, List.flatMap_cons, if_neg hp]
    rw [ih (fun q hq => h q (by simp [hq]))]

/-- With a positive initial total, `_scroll` serves the longest prefix of
responses with non-empty hit lists. -/
theorem _scroll_cons_pos (first : Page) (rest : List Page)
    (h : 0 < first.total) :
    _scroll (first :: rest) =
      (first :: rest).takeWhile (fun p => p.hits.length != 0) := by
  simp only [_scroll, if_pos h]
  exact scrollLoop_eq_takeWhile rest first

/-- With a positive initial total, `iterate_data` yields the documents of
that longest prefix, page by page. -/
theorem iterate_data_cons_pos (first : Page) (rest : List Page)
    (h : 0 < first.total) (raw : Bool) :
    iterate_data (first :: rest) raw =
      ((first :: rest).takeWhile (fun p => p.hits.length != 0)).flatMap
        (fun p => p.hits.map (hitYield raw)) := by
  unfold iterate_data
  rw [_scroll_cons_pos first rest h]
  exact iterLoop_flatMap raw _ (fun p hp => by
    have := List.mem_takeWhile_imp hp
    simpa using this)

/-- C2, counterexample: the initial total-match count IS used to decide
whether iteration starts at all.  A store whose first response reports a
(stale) total of zero but carries one hit record yields nothing: the zero
total suppresses the first page, contradicting the claim that the total
being zero never suppresses yielded pages. -/
theorem c2_total_gates_loop_counterexample :
    iterate_data [⟨0, [⟨[], Json.null⟩]⟩] false = [] ∧
    (⟨0, [⟨[], Json.null⟩]⟩ : Page).hits.length = 1 :=
  ⟨rfl, rfl⟩

/-- C2, amended: provided the initial response reports a positive total
(so the loop is entered at all), the scroll stops exactly at the first
returned page with zero hit records — the pages served are the longest
prefix with non-empty hit lists, and the stale remainder of the total is
never consulted again.  In particular, for a non-zero total with an empty
second page, only the first page's documents are yielded. -/
theorem c2_pagination_termination (first : Page) (rest : List Page)
    (h : 0 < first.total) :
    _scroll (first :: rest) =
      (first :: rest).takeWhile (fun p => p.hits.length != 0) ∧
    ∀ raw, iterate_data (first :: rest) raw =
      ((first :: rest).takeWhile (fun p => p.hits.length != 0)).flatMap
        (fun p => p.hits.map (hitYield raw)) :=
  ⟨_scroll_cons_pos first rest h, fun raw => iterate_data_cons_pos first rest h raw⟩

/-- C2, witness: a store scripted to report total 3 but to serve an empty
hit list on the second page yields only the first page's document. -/
theorem c2_pagination_termination_witness :
    _scroll [⟨3, [⟨[], Json.num 7⟩]⟩, ⟨3, []⟩] = [⟨3, [⟨[], Json.num 7⟩]⟩] ∧
    iterate_data [⟨3, [⟨[], Json.num 7⟩]⟩, ⟨3, []⟩] false = [Json.num 7] := by
  have h := c2_pagination_termination ⟨3, [⟨[], Json.num 7⟩]⟩ [⟨3, []⟩] (by decide)
  exact ⟨by rw [h.1]; rfl, by rw [h.2 false]; rfl⟩

/-- C8: over a well-formed scripted store — pages with hit records followed
by the exhausted empty page, the first response reporting a positive total —
`iterate_data` yields exactly the documents in page order and, within a
page, hit order; each yielded item is the hit's `_source` payload when
`raw` is false and the full hit record when `raw` is true. -/
theorem c8_stream_shape_and_order (ps : List Page) (last : Page) (raw : Bool)
    (hlast : last.hits.length = 0)
    (hne : ∀ p ∈ ps, 0 < p.hits.length)
    (htot : ∀ q, ps.head? = some q → 0 < q.total) :
    iterate_data (ps ++ [last]) raw =
      ps.flatMap (fun p => p.hits.map
        (fun h => if raw = false then h.source else h.raw)) := by
  have hshape : ∀ p : Page, p.hits.map (hitYield raw) =
      p.hits.map (fun h => if raw = false then h.source else h.raw) := by
    intro p; rfl
  cases ps with
  | nil =>
    simp only [List.nil_append, List.flatMap_nil, iterate_data, _scroll]
    by_cases h : 0 < last.total
    · rw [if_pos h]
      simp [scrollLoop, hlast, iterLoop]
    · rw [if_neg h]
      rfl
  | cons q qs =>
    have hq : 0 < q.total := htot q rfl
    rw [show (q :: qs) ++ [last] = q :: (qs ++ [last]) by simp] at *
    rw [iterate_data_cons_pos q (qs ++ [last]) hq raw]
    rw [show q :: (qs ++ [last]) = (q :: qs) ++ [last] by simp]
    rw [takeWhile_all_append (fun p hp => by
        have := hne p hp
        simpa using Nat.pos_iff_ne_zero.mp this)
      (by simpa using hlast)]
    simp only [List.flatMap_cons]
    rfl

set_option maxRecDepth 8000 in
/-- C8, witness: sequential ids 1..250 served at page size 100 (two full
pages, one of 50, then the exhausted page) are yielded in strictly
increasing order 1..250. -/
theorem c8_stream_shape_and_order_witness :
    iterate_data
      ([⟨250, (List.range' 1 100).map (fun i => ⟨[], Json.num i⟩)⟩,
        ⟨250, (List.range' 101 100).map (fun i => ⟨[], Json.num i⟩)⟩,
        ⟨250, (List.range' 201 50).map (fun i => ⟨[], Json.num i⟩)⟩] ++ [⟨250, []⟩])
      false
      = (List.range' 1 250).map (fun i => Json.num i) := by
  have h := c8_stream_shape_and_order
    [⟨250, (List.range' 1 100).map (fun i => ⟨[], Json.num i⟩)⟩,
     ⟨250, (List.range' 101 100).map (fun i => ⟨[], Json.num i⟩)⟩,
     ⟨250, (List.range' 201 50).map (fun i => ⟨[], Json.num i⟩)⟩]
    ⟨250, []⟩ false rfl (by decide)
    (by intro q hq
        injection hq with h1
        rw [← h1]
        decide)
  rw [h]
  rfl

/-! ### Lemmas about the store model -/

theorem docsOf_putGo (l : List (String × IndexData)) (i : String) (m : Json)
    (j : String) :
    docsOf ⟨put_mapping.go l i m⟩ j = docsOf ⟨l⟩ j := by
  induction l with
  | nil => rfl
  | cons e rest ih =>
    obtain ⟨k, d⟩ := e
    by_cases hki : k = i
    · by_cases hkj : k = j
      · have hij : i = j := hki ▸ hkj
        simp [put_mapping.go, docsOf, esLookup, hki, hkj, hij]
      · have hij : ¬i = j := fun h => hkj (hki.trans h)
        simp [put_mapping.go, docsOf, esLookup, hki, hkj, hij]
    · by_cases hkj : k = j
      · have hji : ¬j = i := fun h => hki (hkj.trans h)
        simp [put_mapping.go, docsOf, esLookup, hki, hkj, hji]
      · simp only [put_mapping.go, if_neg hki, docsOf, esLookup, if_neg hkj]
        exact ih

theorem docsOf_put_mapping (es : ESState) (i : String) (m : Json) (j : String) :
    docsOf (put_mapping es i m) j = docsOf es j :=
  docsOf_putGo es.indices i m j

theorem esExists_putGo (l : List (String × IndexData)) (i : String) (m : Json)
    (j : String) :
    esExists ⟨put_mapping.go l i m⟩ j = esExists ⟨l⟩ j := by
  induction l with
  | nil => rfl
  | cons e rest ih =>
    obtain ⟨k, d⟩ := e
    by_cases hki : k = i
    · by_cases hkj : k = j
      · have hij : i = j := hki ▸ hkj
        simp [put_mapping.go, esExists, esLookup, hki, hkj, hij]
      · have hij : ¬i = j := fun h => hkj (hki.trans h)
        simp [put_mapping.go, esExists, esLookup, hki, hkj, hij]
    · by_cases hkj : k = j
      · have hji : ¬j = i := fun h => hki (hkj.trans h)
        simp [put_mapping.go, esExists, esLookup, hki, hkj, hji]
      · simp only [put_mapping.go, if_neg hki, esExists, esLookup, if_neg hkj]
        exact ih

theorem esExists_put_mapping (es : ESState) (i : String) (m : Json) (j : String) :
    esExists (put_mapping es i m) j = esExists es j :=
  esExists_putGo es.indices i m j

theorem esLookup_append_singleton (l : List (String × IndexData)) (j i : String)
    (d : IndexData) :
    esLookup (l ++ [(j, d)]) i =
      match esLookup l i with
      | some x => some x
      | none => if j = i then some d else none := by
  induction l with
  | nil => rfl
  | cons e rest ih =>
    obtain ⟨k, x⟩ := e
    by_cases hk : k = i
    · simp [esLookup, hk]
    · simp [esLookup, hk, ih]

theorem docsOf_esCreate (es : ESState) (j i : String) :
    docsOf (esCreate es j) i = docsOf es i := by
  simp only [docsOf, esCreate, esLookup_append_singleton]
  cases esLookup es.indices i with
  | some x => rfl
  | none => by_cases h : j = i <;> simp [h]

theorem esExists_esCreate_self (es : ESState) (j : String) :
    esExists (esCreate es j) j = true := by
  simp only [esExists, esCreate, esLookup_append_singleton]
  cases esLookup es.indices j <;> simp

/-- `create_index` never changes the documents of any index: an existing
index is left entirely alone, and a created one starts empty. -/
theorem docsOf_create_index (es : ESState) (st : DumperState)
    (index_name doc_type : String) (c : Bool) (m : Option Json) (i : String) :
    docsOf (create_index es st index_name doc_type c m).1 i = docsOf es i := by
  simp only [create_index]
  by_cases h : esExists es index_name
  · simp [h]
  · simp only [h, if_false, Bool.false_eq_true]
    cases c with
    | false => simp
    | true =>
      cases m with
      | none => simp [docsOf_esCreate]
      | some mm => simp [docsOf_put_mapping, docsOf_esCreate]

/-- After `create_index` with `create_if_not_exists = true`, the index
exists. -/
theorem esExists_create_index (es : ESState) (st : DumperState)
    (index_name doc_type : String) (m : Option Json) :
    esExists (create_index es st index_name doc_type true m).1 index_name = true := by
  simp only [create_index]
  by_cases h : esExists es index_name
  · rw [if_pos h]
    exact h
  · simp only [h, if_false, Bool.false_eq_true, if_true]
    cases m with
    | none => exact esExists_esCreate_self es index_name
    | some mm =>
      rw [esExists_put_mapping]
      exact esExists_esCreate_self es index_name

/-- C6: collection creation is idempotent.  When the index already exists,
`create_index` leaves the store untouched (so the existing mapping is never
overwritten); a second call with the same arguments changes nothing beyond
the first; and no call ever alters the documents of any index. -/
theorem c6_create_index_idempotent (es : ESState) (st : DumperState)
    (index_name doc_type : String) (c : Bool) (m : Option Json) :
    (esExists es index_name = true →
      (create_index es st index_name doc_type c m).1 = es) ∧
    (create_index (create_index es st index_name doc_type c m).1
        (create_index es st index_name doc_type c m).2 index_name doc_type c m).1
      = (create_index es st index_name doc_type c m).1 ∧
    (∀ i, docsOf (create_index es st index_name doc_type c m).1 i = docsOf es i) := by
  refine ⟨fun h => by simp [create_index, h], ?_, docsOf_create_index es st _ _ c m⟩
  by_cases h : esExists es index_name
  · simp [create_index, h]
  · cases c with
    | false =>
      simp [create_index, h]
    | true =>
      have h2 := esExists_create_index es st index_name doc_type m
      generalize (create_index es st index_name doc_type true m).2 = st1
      generalize hX : (create_index es st index_name doc_type true m).1 = es1 at h2 ⊢
      simp [create_index, h2]

/-- C6, witness: on a store already holding an index `"i"` with a mapping
and one document, `create_index` leaves the store unchanged, and a second
call changes nothing either. -/
theorem c6_create_index_idempotent_witness :
    (esExists ⟨[("i", ⟨some Json.null, [Json.null]⟩)]⟩ "i" = true) ∧
    (create_index ⟨[("i", ⟨some Json.null, [Json.null]⟩)]⟩ ⟨"i", "t"⟩ "i" "t" true
        (some (Json.num 3))).1 = ⟨[("i", ⟨some Json.null, [Json.null]⟩)]⟩ := by
  have h := c6_create_index_idempotent ⟨[("i", ⟨some Json.null, [Json.null]⟩)]⟩
    ⟨"i", "t"⟩ "i" "t" true (some (Json.num 3))
  exact ⟨rfl, h.1 rfl⟩

/-- C9: `create_index` always overwrites the dumper's cursor state with the
arguments it was given — also when the index already exists and nothing is
created — so every later `iterate_data` (and hence `dump`) call targets the
index named in the most recent `create_index` call, not the one given at
construction. -/
theorem c9_create_index_sets_cursor (es : ESState) (st : DumperState)
    (index_name doc_type : String) (c : Bool) (m : Option Json) :
    (create_index es st index_name doc_type c m).2 = ⟨index_name, doc_type⟩ ∧
    ∀ store raw,
      iterate_data_st store (create_index es st index_name doc_type c m).2 raw =
        iterate_data (store index_name) raw :=
  ⟨rfl, fun _ _ => rfl⟩

/-! ### Bulk request construction -/

theorem gen_bulk_eq_map (data : List Json) (index_name doc_type : String) :
    _gen_bulk data index_name doc_type = data.map (fun d =>
      if d.hasKey "_source" then d
      else Json.obj [("_index", .str index_name), ("_type", .str doc_type),
        ("_source", d)]) := by
  induction data with
  | nil => rfl
  | cons d ds ih => simp only [_gen_bulk, List.map_cons, ih]

theorem getKey_wrap (index_name doc_type : String) (d : Json) :
    (Json.obj [("_index", .str index_name), ("_type", .str doc_type),
      ("_source", d)]).getKey "_index" = some (.str index_name) ∧
    (Json.obj [("_index", .str index_name), ("_type", .str doc_type),
      ("_source", d)]).getKey "_type" = some (.str doc_type) ∧
    (Json.obj [("_index", .str index_name), ("_type", .str doc_type),
      ("_source", d)]).getKey "_source" = some d := by
  refine ⟨?_, ?_, ?_⟩ <;> simp [Json.getKey, Json.getKey.go]

/-- C4, counterexample: the Bulk Loader decides "was dumped in raw mode" by
the presence of a top-level `_source` key alone.  A normalized-mode item
that happens to carry a `_source` field is reused verbatim instead of being
wrapped, and the resulting write request names no target collection at all —
so not every normalized-mode request targets the `index_name` passed to
`restore`. -/
theorem c4_bulk_request_construction_counterexample :
    _gen_bulk [Json.obj [("_source", Json.null)]] "idx" "doc" =
      [Json.obj [("_source", Json.null)]] ∧
    (Json.obj [("_source", Json.null)]).getKey "_index" = none := by
  constructor
  · simp [_gen_bulk, Json.hasKey, Json.getKey, Json.getKey.go]
  · simp [Json.getKey, Json.getKey.go]

/-- C4, amended: an item with a top-level `_source` key (in particular every
raw-mode hit record) is reused verbatim as its write request; an item
without one is wrapped as `{'_index': index_name, '_type': doc_type,
'_source': item}`; and for a batch in which no item carries a top-level
`_source` key — the shape of every normalized-mode batch of documents that
do not themselves contain a `_source` field — every emitted request targets
exactly the `index_name` and `doc_type` passed to `restore` and carries one
of the batch's items as payload. -/
theorem c4_bulk_request_construction (data : List Json)
    (index_name doc_type : String) :
    (∀ d ∈ data, d.hasKey "_source" = true →
      d ∈ _gen_bulk data index_name doc_type) ∧
    (∀ d ∈ data, d.hasKey "_source" = false →
      Json.obj [("_index", .str index_name), ("_type", .str doc_type),
        ("_source", d)] ∈ _gen_bulk data index_name doc_type) ∧
    ((∀ d ∈ data, d.hasKey "_source" = false) →
      ∀ r ∈ _gen_bulk data index_name doc_type,
        r.getKey "_index" = some (.str index_name) ∧
        r.getKey "_type" = some (.str doc_type) ∧
        ∃ d ∈ data, r.getKey "_source" = some d) := by
  rw [gen_bulk_eq_map]
  refine ⟨?_, ?_, ?_⟩
  · intro d hd h
    exact List.mem_map.mpr ⟨d, hd, by simp [h]⟩
  · intro d hd h
    exact List.mem_map.mpr ⟨d, hd, by simp [h]⟩
  · intro hall r hr
    obtain ⟨d, hd, rfl⟩ := List.mem_map.mp hr
    have h := hall d hd
    simp only [h, if_false, Bool.false_eq_true]
    obtain ⟨h1, h2, h3⟩ := getKey_wrap index_name doc_type d
    exact ⟨h1, h2, d, hd, h3⟩

/-- C4, witness: a batch consisting of one payload without a `_source`
field is wrapped, and every request of that batch targets index `"i"`. -/
theorem c4_bulk_request_construction_witness :
    Json.obj [("_index", Json.str "i"), ("_type", Json.str "t"),
      ("_source", Json.num 1)] ∈ _gen_bulk [Json.num 1] "i" "t" ∧
    ∀ r ∈ _gen_bulk [Json.num 1] "i" "t",
      r.getKey "_index" = some (Json.str "i") := by
  have h := c4_bulk_request_construction [Json.num 1] "i" "t"
  refine ⟨h.2.1 (Json.num 1) (by simp) rfl, fun r hr => ?_⟩
  have hall : ∀ d ∈ [Json.num 1], d.hasKey "_source" = false := by
    intro d hd
    simp only [List.mem_singleton] at hd
    subst hd
    rfl
  exact (h.2.2 hall r hr).1

/-! ### Chunking -/

/-- Specification-side chunking: split a list into consecutive runs of
`dpf` elements, the last run possibly shorter. -/
def chunksOf (dpf : Nat) : List α → List (List α)
  | [] => []
  | x :: rest =>
    if h : 0 < dpf then
      ((x :: rest).take dpf) :: chunksOf dpf ((x :: rest).drop dpf)
    else [x :: rest]
  termination_by xs => xs.length
  decreasing_by
    simp only [List.length_drop, List.length_cons]
    omega

theorem chunksOf_nil (dpf : Nat) : chunksOf dpf ([] : List α) = [] := by
  unfold chunksOf
  rfl

theorem chunksOf_pos {dpf : Nat} {xs : List α} (h1 : 0 < dpf) (h2 : xs ≠ []) :
    chunksOf dpf xs = xs.take dpf :: chunksOf dpf (xs.drop dpf) := by
  cases xs with
  | nil => exact absurd rfl h2
  | cons x rest =>
    rw [chunksOf]
    rw [dif_pos h1]

theorem chunksOf_flatten (dpf : Nat) (xs : List α) :
    (chunksOf dpf xs).flatten = xs := by
  by_cases h2 : xs = []
  · subst h2
    rw [chunksOf_nil]
    rfl
  · by_cases h1 : 0 < dpf
    · rw [chunksOf_pos h1 h2, List.flatten_cons,
        chunksOf_flatten dpf (xs.drop dpf)]
      exact List.take_append_drop dpf xs
    · cases xs with
      | nil => exact absurd rfl h2
      | cons x rest =>
        rw [chunksOf]
        rw [dif_neg h1]
        simp
  termination_by xs.length
  decreasing_by
    simp only [List.length_drop]
    have hx : 0 < xs.length := List.length_pos.mpr h2
    omega

theorem chunksOf_full_lengths {dpf : Nat} (h1 : 0 < dpf) :
    ∀ (k : Nat) (xs : List α), xs.length = dpf * k →
      (chunksOf dpf xs).map List.length = List.replicate k dpf := by
  intro k
  induction k with
  | zero =>
    intro xs hx
    have : xs = [] := List.length_eq_zero.mp (by simpa using hx)
    subst this
    rw [chunksOf_nil]
    rfl
  | succ k ih =>
    intro xs hx
    have hlen : dpf ≤ xs.length := by
      rw [hx, Nat.mul_succ]
      omega
    have hne : xs ≠ [] := by
      intro h
      subst h
      simp at hx
      omega
    rw [chunksOf_pos h1 hne, List.map_cons]
    rw [List.length_take, Nat.min_eq_left hlen]
    rw [ih (xs.drop dpf) (by rw [List.length_drop, hx, Nat.mul_succ]; omega)]
    rfl

theorem chunksOf_rem_lengths {dpf r : Nat} (h1 : 0 < dpf) (hr0 : 0 < r)
    (hrd : r < dpf) :
    ∀ (k : Nat) (xs : List α), xs.length = dpf * k + r →
      (chunksOf dpf xs).map List.length = List.replicate k dpf ++ [r] := by
  intro k
  induction k with
  | zero =>
    intro xs hx
    simp only [Nat.mul_zero, Nat.zero_add] at hx
    have hne : xs ≠ [] := by
      intro h
      subst h
      simp at hx
      omega
    rw [chunksOf_pos h1 hne]
    rw [List.take_of_length_le (by omega), List.drop_eq_nil_of_le (by omega)]
    rw [chunksOf_nil]
    simp [hx]
  | succ k ih =>
    intro xs hx
    have hlen : dpf ≤ xs.length := by
      rw [hx, Nat.mul_succ]
      omega
    have hne : xs ≠ [] := by
      intro h
      subst h
      simp at hx
      omega
    rw [chunksOf_pos h1 hne, List.map_cons]
    rw [List.length_take, Nat.min_eq_left hlen]
    rw [ih (xs.drop dpf) (by rw [List.length_drop, hx, Nat.mul_succ]; omega)]
    rfl

/-- The buffering loop of `dump` produces exactly the consecutive chunks of
its input stream appended to the pending buffer. -/
theorem dumpLoop_docs_eq_chunksOf {dpf : Nat} (h1 : 0 < dpf) :
    ∀ (ds buf : List Json) (count : Nat), buf.length < dpf →
      (dumpLoop dpf ds buf count).map (fun a => a.docs) =
        chunksOf dpf (buf ++ ds) := by
  intro ds
  induction ds with
  | nil =>
    intro buf count hb
    simp only [dumpLoop, List.append_nil]
    by_cases h : 0 < buf.length
    · rw [if_pos h]
      have hne : buf ≠ [] := by
        intro hh
        subst hh
        simp at h
      rw [chunksOf_pos h1 hne]
      rw [List.take_of_length_le (by omega), List.drop_eq_nil_of_le (by omega)]
      rw [chunksOf_nil]
      rfl
    · rw [if_neg h]
      have : buf = [] := List.length_eq_zero.mp (by omega)
      subst this
      rw [chunksOf_nil]
      rfl
  | cons d ds ih =>
    intro buf count hb
    simp only [dumpLoop]
    have hlen1 : (buf ++ [d]).length = buf.length + 1 := by simp
    by_cases h : dpf ≤ (buf ++ [d]).length
    · rw [if_pos h]
      have hfull : (buf ++ [d]).length = dpf := by omega
      rw [List.map_cons, ih [] (count + 1) (by simpa using h1)]
      simp only [List.nil_append]
      rw [show buf ++ d :: ds = (buf ++ [d]) ++ ds by simp]
      rw [@chunksOf_pos Json dpf ((buf ++ [d]) ++ ds) h1 (by simp)]
      rw [List.take_left' hfull, List.drop_left' hfull]
      rfl
    · rw [if_neg h]
      rw [ih (buf ++ [d]) count (by omega)]
      simp

/-- C3: with `docs_per_file = dpf ≥ 1`, dumping a stream of exactly
`dpf * k` documents produces exactly `k` chunks of exactly `dpf` documents
each, whose concatenation (in order) is the stream; a stream of
`dpf * k + r` documents with `0 < r < dpf` produces `k + 1` chunks, the
last holding exactly `r` documents. -/
theorem c3_chunk_boundary (docs : List Json) (dpf k r : Nat) (h1 : 1 ≤ dpf) :
    (docs.length = dpf * k →
      (dumpLoop dpf docs [] 0).map (fun a => a.docs.length) =
        List.replicate k dpf ∧
      ((dumpLoop dpf docs [] 0).map (fun a => a.docs)).flatten = docs) ∧
    (docs.length = dpf * k + r → 0 < r → r < dpf →
      (dumpLoop dpf docs [] 0).map (fun a => a.docs.length) =
        List.replicate k dpf ++ [r] ∧
      ((dumpLoop dpf docs [] 0).map (fun a => a.docs)).flatten = docs) := by
  have hbridge := dumpLoop_docs_eq_chunksOf h1 docs [] 0 (by simpa using h1)
  simp only [List.nil_append] at hbridge
  have hcomp : (dumpLoop dpf docs [] 0).map (fun a => a.docs.length) =
      ((dumpLoop dpf docs [] 0).map (fun a => a.docs)).map List.length := by
    rw [List.map_map]
    rfl
  constructor
  · intro hx
    refine ⟨?_, by rw [hbridge, chunksOf_flatten]⟩
    rw [hcomp, hbridge]
    exact chunksOf_full_lengths h1 k docs hx
  · intro hx hr0 hrd
    refine ⟨?_, by rw [hbridge, chunksOf_flatten]⟩
    rw [hcomp, hbridge]
    exact chunksOf_rem_lengths h1 hr0 hrd k docs hx

/-- C3, witness: with two documents per chunk, four documents make two full
chunks and five documents make two full chunks plus a final chunk of one. -/
theorem c3_chunk_boundary_witness :
    (dumpLoop 2 [Json.num 1, Json.num 2, Json.num 3, Json.num 4] [] 0).map
        (fun a => a.docs.length) = List.replicate 2 2 ∧
    (dumpLoop 2 [Json.num 1, Json.num 2, Json.num 3, Json.num 4, Json.num 5]
        [] 0).map (fun a => a.docs.length) = List.replicate 2 2 ++ [1] := by
  refine ⟨((c3_chunk_boundary
      [Json.num 1, Json.num 2, Json.num 3, Json.num 4] 2 2 1
      (by omega)).1 rfl).1, ?_⟩
  exact ((c3_chunk_boundary
    [Json.num 1, Json.num 2, Json.num 3, Json.num 4, Json.num 5] 2 2 1
    (by omega)).2 rfl (by omega) (by omega)).1

/-! ### The restore loop -/

/-- When the data directory holds no `.json` file, one iteration of the
restore loop extracts exactly the archive's own json file, loads it as the
single bulk batch, and deletes it again. -/
theorem restoreStep_empty (z : Archive) : restoreStep z [] = ([z.docs], []) := by
  simp [restoreStep, extractInto, sortJsons, sortBy, insertSorted, List.contains]

/-- The whole restore loop on an initially `.json`-free data directory:
one batch per archive — its document array — in order, and the directory
is `.json`-free again at the start of every iteration and at the end. -/
theorem restoreLoop_empty (zips : List Archive) :
    (restoreLoop zips []).1 = zips.map (fun z => z.docs) ∧
    (restoreLoop zips []).2 = [] ∧
    restoreStates zips [] = List.replicate zips.length [] := by
  induction zips with
  | nil => exact ⟨rfl, rfl, rfl⟩
  | cons z zs ih =>
    refine ⟨?_, ?_, ?_⟩
    · show (restoreLoop (z :: zs) []).1 = z.docs :: zs.map (fun z => z.docs)
      simp only [restoreLoop, restoreStep_empty, ih.1]
      rfl
    · show (restoreLoop (z :: zs) []).2 = []
      simp only [restoreLoop, restoreStep_empty, ih.2.1]
    · show restoreStates (z :: zs) [] = List.replicate (zs.length + 1) []
      simp only [restoreStates, restoreStep_empty, ih.2.2]
      rfl

/-- C10: the per-archive step of `restore` loads every `.json` file present
in the data directory (not only the one extracted from the current archive)
and deletes each loaded file; consequently, for a restore started with a
data directory holding no `.json` files, each archive's document array is
bulk-loaded exactly once and in order, no `.json` file survives, and at the
start of every archive iteration the data directory contains no `.json`
files. -/
theorem c10_restore_loop_invariant (zips : List Archive) :
    (restoreLoop zips []).1 = zips.map (fun z => z.docs) ∧
    (restoreLoop zips []).2 = [] ∧
    restoreStates zips [] = List.replicate zips.length [] :=
  restoreLoop_empty zips

/-! ### Restore preconditions -/

/-- C5: `restore` fails with the missing-path error when the dump directory
or its data subdirectory does not exist, and with the no-data error when the
data directory holds zero zip archives; dumping an empty stream leaves a
mapping file and zero chunks, and restoring that dump fails with the
no-data error. -/
theorem c5_restore_precondition_errors (fs : FS) (es : ESState)
    (st : DumperState) (n t : String) (m dm : Json) (dpf : Nat) :
    (fs.dumpExists = false → restore fs es st n t = .error .notExistingDumpPath) ∧
    (fs.dumpExists = true → fs.dataExists = false →
      restore fs es st n t = .error .notExistingDataPath) ∧
    (fs.dumpExists = true → fs.dataExists = true → fs.mappingFile = some m →
      fs.zips = [] → restore fs es st n t = .error .noZipFiles) ∧
    (dumpLoop dpf [] [] 0 = [] ∧
     (fsOfDump ⟨dm, dumpLoop dpf [] [] 0⟩).mappingFile = some dm ∧
     restore (fsOfDump ⟨dm, dumpLoop dpf [] [] 0⟩) es st n t =
       .error .noZipFiles) := by
  refine ⟨fun h1 => ?_, fun h1 h2 => ?_, fun h1 h2 h3 h4 => ?_, rfl, rfl, ?_⟩
  · simp [restore, h1]
  · simp [restore, h1, h2]
  · simp [restore, h1, h2, h3, h4, sortZips, sortBy]
  · simp [restore, fsOfDump, dumpLoop, sortZips, sortBy]

/-- C5, witness: the three error cases and the empty dump, at concrete
inputs. -/
theorem c5_restore_precondition_errors_witness :
    restore ⟨false, false, none, [], []⟩ ⟨[]⟩ ⟨"s", "t"⟩ "i" "d" =
      .error .notExistingDumpPath ∧
    restore ⟨true, false, none, [], []⟩ ⟨[]⟩ ⟨"s", "t"⟩ "i" "d" =
      .error .notExistingDataPath ∧
    restore ⟨true, true, some Json.null, [], []⟩ ⟨[]⟩ ⟨"s", "t"⟩ "i" "d" =
      .error .noZipFiles ∧
    restore (fsOfDump ⟨Json.null, dumpLoop 5 [] [] 0⟩) ⟨[]⟩ ⟨"s", "t"⟩ "i" "d" =
      .error .noZipFiles := by
  have h := c5_restore_precondition_errors ⟨false, false, none, [], []⟩ ⟨[]⟩
    ⟨"s", "t"⟩ "i" "d" Json.null Json.null 5
  have h2 := c5_restore_precondition_errors ⟨true, false, none, [], []⟩ ⟨[]⟩
    ⟨"s", "t"⟩ "i" "d" Json.null Json.null 5
  have h3 := c5_restore_precondition_errors ⟨true, true, some Json.null, [], []⟩
    ⟨[]⟩ ⟨"s", "t"⟩ "i" "d" Json.null Json.null 5
  exact ⟨h.1 rfl, h2.2.1 rfl rfl, h3.2.2.1 rfl rfl rfl rfl, h.2.2.2.2.2⟩

/-! ### Decimal representations and their lexicographic order -/

theorem decRepr_go_congr :
    ∀ f1 n, n < f1 → ∀ f2, n < f2 → decRepr.go f1 n = decRepr.go f2 n := by
  intro f1
  induction f1 with
  | zero => omega
  | succ f1 ih =>
    intro n hn f2 hn2
    cases f2 with
    | zero => omega
    | succ f2 =>
      simp only [decRepr.go]
      by_cases h : n < 10
      · simp [h]
      · have hdiv : n / 10 < n := Nat.div_lt_self (by omega) (by omega)
        rw [if_neg h, if_neg h, ih (n / 10) (by omega) f2 (by omega)]

theorem decRepr_lt10 {n : Nat} (h : n < 10) : decRepr n = [Nat.digitChar n] := by
  simp [decRepr, decRepr.go, h]

theorem decRepr_ge10 {n : Nat} (h : ¬n < 10) :
    decRepr n = decRepr (n / 10) ++ [Nat.digitChar (n % 10)] := by
  have hdiv : n / 10 < n := Nat.div_lt_self (by omega) (by omega)
  show decRepr.go (n + 1) n = decRepr.go (n / 10 + 1) (n / 10) ++ _
  rw [show decRepr.go (n + 1) n =
    decRepr.go n (n / 10) ++ [Nat.digitChar (n % 10)] by simp [decRepr.go, h]]
  rw [decRepr_go_congr n (n / 10) (by omega) (n / 10 + 1) (by omega)]

theorem decRepr_length_le :
    ∀ w, 1 ≤ w → ∀ n, n < 10 ^ w → (decRepr n).length ≤ w := by
  intro w
  induction w with
  | zero => omega
  | succ w ih =>
    intro hw n hn
    by_cases h : n < 10
    · rw [decRepr_lt10 h]
      simp
    · have hw1 : 1 ≤ w := by
        by_contra hc
        have : w = 0 := by omega
        subst this
        simp at hn
        omega
      rw [decRepr_ge10 h]
      have hdivb : n / 10 < 10 ^ w := by
        rw [Nat.div_lt_iff_lt_mul (by omega)]
        calc n < 10 ^ (w + 1) := hn
          _ = 10 ^ w * 10 := by ring
      have := ih hw1 (n / 10) hdivb
      simp only [List.length_append, List.length_cons, List.length_nil]
      omega

/-- Big-endian fixed-width decimal digits: digit of weight `10 ^ (w-1)`
first. -/
def fixedW : Nat → Nat → List Char
  | 0, _ => []
  | w + 1, n => Nat.digitChar (n / 10 ^ w % 10) :: fixedW w n

theorem fixedW_length : ∀ (w n : Nat), (fixedW w n).length = w := by
  intro w
  induction w with
  | zero => intro n; rfl
  | succ w ih => intro n; simp [fixedW, ih]

theorem fixedW_leading_zero {w n : Nat} (h : n < 10 ^ w) :
    fixedW (w + 1) n = '0' :: fixedW w n := by
  have : n / 10 ^ w = 0 := Nat.div_eq_of_lt h
  simp only [fixedW, this, Nat.zero_mod]
  rfl

theorem fixedW_snoc :
    ∀ (w n : Nat), fixedW (w + 1) n =
      fixedW w (n / 10) ++ [Nat.digitChar (n % 10)] := by
  intro w
  induction w with
  | zero =>
    intro n
    simp [fixedW]
  | succ w ih =>
    intro n
    have hd : n / 10 / 10 ^ w = n / 10 ^ (w + 1) := by
      rw [Nat.div_div_eq_div_mul]
      congr 1
      ring
    calc fixedW (w + 2) n
        = Nat.digitChar (n / 10 ^ (w + 1) % 10) :: fixedW (w + 1) n := rfl
      _ = Nat.digitChar (n / 10 ^ (w + 1) % 10) ::
            (fixedW w (n / 10) ++ [Nat.digitChar (n % 10)]) := by rw [ih n]
      _ = (Nat.digitChar (n / 10 / 10 ^ w % 10) :: fixedW w (n / 10)) ++
            [Nat.digitChar (n % 10)] := by rw [hd]; rfl
      _ = fixedW (w + 1) (n / 10) ++ [Nat.digitChar (n % 10)] := rfl

theorem fixedW_eq_decRepr :
    ∀ (w n : Nat), 10 ^ w ≤ n → n < 10 ^ (w + 1) →
      fixedW (w + 1) n = decRepr n := by
  intro w
  induction w with
  | zero =>
    intro n h1 h2
    have h2' : n < 10 := by simpa using h2
    rw [decRepr_lt10 h2']
    show [Nat.digitChar (n / 10 ^ 0 % 10)] = [Nat.digitChar n]
    rw [Nat.pow_zero, Nat.div_one, Nat.mod_eq_of_lt h2']
  | succ w ih =>
    intro n h1 h2
    have h10 : ¬n < 10 := by
      have : 10 ≤ 10 ^ (w + 1) := by
        calc 10 = 10 ^ 1 := by ring
          _ ≤ 10 ^ (w + 1) := Nat.pow_le_pow_right (by omega) (by omega)
      omega
    rw [decRepr_ge10 h10, fixedW_snoc (w + 1) n]
    congr 1
    apply ih
    · rw [Nat.le_div_iff_mul_le (by omega)]
      calc 10 ^ w * 10 = 10 ^ (w + 1) := by ring
        _ ≤ n := h1
    · rw [Nat.div_lt_iff_lt_mul (by omega)]
      calc n < 10 ^ (w + 2) := h2
        _ = 10 ^ (w + 1) * 10 := by ring

theorem fixedW_eq_padded :
    ∀ w, 1 ≤ w → ∀ n, n < 10 ^ w →
      fixedW w n = List.replicate (w - (decRepr n).length) '0' ++ decRepr n := by
  intro w
  induction w with
  | zero => omega
  | succ w ih =>
    intro hw n hn
    by_cases hw0 : w = 0
    · subst hw0
      have hn' : n < 10 := by simpa using hn
      rw [decRepr_lt10 hn']
      simp only [List.length_cons, List.length_nil, Nat.sub_self,
        List.replicate, List.nil_append]
      show [Nat.digitChar (n / 10 ^ 0 % 10)] = [Nat.digitChar n]
      rw [Nat.pow_zero, Nat.div_one, Nat.mod_eq_of_lt hn']
    · by_cases hsmall : n < 10 ^ w
      · rw [fixedW_leading_zero hsmall, ih (by omega) n hsmall]
        have hlen : (decRepr n).length ≤ w := decRepr_length_le w (by omega) n hsmall
        rw [show w + 1 - (decRepr n).length = (w - (decRepr n).length) + 1 by omega]
        rfl
      · have heq := fixedW_eq_decRepr w n (by omega) hn
        rw [heq]
        have hlen : (decRepr n).length = w + 1 := by
          rw [← heq]
          exact fixedW_length (w + 1) n
        rw [hlen, Nat.sub_self]
        rfl

theorem fixedW_mod : ∀ (w n : Nat), fixedW w (n % 10 ^ w) = fixedW w n := by
  intro w
  induction w with
  | zero => intro n; rfl
  | succ w ih =>
    intro n
    have hdvd : (10 : Nat) ^ w ∣ 10 ^ (w + 1) := pow_dvd_pow 10 (by omega)
    have hhead : n % 10 ^ (w + 1) / 10 ^ w % 10 = n / 10 ^ w % 10 := by
      rw [show (10 : Nat) ^ (w + 1) = 10 ^ w * 10 by ring]
      rw [Nat.mod_mul_right_div_self]
      exact Nat.mod_mod_of_dvd _ (dvd_refl 10)
    show Nat.digitChar (n % 10 ^ (w + 1) / 10 ^ w % 10) ::
        fixedW w (n % 10 ^ (w + 1)) = _
    rw [hhead]
    have htail : fixedW w (n % 10 ^ (w + 1)) = fixedW w n := by
      rw [← ih (n % 10 ^ (w + 1)), Nat.mod_mod_of_dvd n hdvd, ih n]
    rw [htail]
    rfl

theorem digitChar_mono :
    ∀ d, d < 10 → ∀ e, e < 10 → d < e → Nat.digitChar d < Nat.digitChar e := by
  decide

/-- Fixed-width decimal digit strings compare lexicographically exactly as
their values do. -/
theorem fixedW_lt :
    ∀ (w n m : Nat), n < m → m < 10 ^ w →
      List.Lex (· < ·) (fixedW w n) (fixedW w m) := by
  intro w
  induction w with
  | zero =>
    intro n m hnm hm
    simp only [Nat.pow_zero] at hm
    omega
  | succ w ih =>
    intro n m hnm hm
    have hpow : 0 < 10 ^ w := Nat.pos_pow_of_pos w (by omega)
    have hmw : m / 10 ^ w < 10 := by
      rw [Nat.div_lt_iff_lt_mul hpow]
      calc m < 10 ^ (w + 1) := hm
        _ = 10 * 10 ^ w := by ring
    have hle : n / 10 ^ w ≤ m / 10 ^ w := Nat.div_le_div_right (by omega)
    have hnw : n / 10 ^ w < 10 := by omega
    have hmodn : n / 10 ^ w % 10 = n / 10 ^ w := Nat.mod_eq_of_lt hnw
    have hmodm : m / 10 ^ w % 10 = m / 10 ^ w := Nat.mod_eq_of_lt hmw
    rcases Nat.lt_or_ge (n / 10 ^ w) (m / 10 ^ w) with hlt | hge
    · refine List.Lex.rel ?_
      rw [hmodn, hmodm]
      exact digitChar_mono _ hnw _ hmw hlt
    · have heq : n / 10 ^ w = m / 10 ^ w := by omega
      have hchar : Nat.digitChar (n / 10 ^ w % 10) =
          Nat.digitChar (m / 10 ^ w % 10) := by rw [heq]
      show List.Lex (· < ·)
        (Nat.digitChar (n / 10 ^ w % 10) :: fixedW w n)
        (Nat.digitChar (m / 10 ^ w % 10) :: fixedW w m)
      rw [hchar]
      refine List.Lex.cons ?_
      have hceq : 10 ^ w * (n / 10 ^ w) = 10 ^ w * (m / 10 ^ w) := by rw [heq]
      have hmods : n % 10 ^ w < m % 10 ^ w := by
        have hn := Nat.div_add_mod n (10 ^ w)
        have hm' := Nat.div_add_mod m (10 ^ w)
        omega
      have hmb : m % 10 ^ w < 10 ^ w := Nat.mod_lt m hpow
      have := ih (n % 10 ^ w) (m % 10 ^ w) hmods hmb
      rw [fixedW_mod w n, fixedW_mod w m] at this
      exact this

theorem lex_append_left (p : List Char) {a b : List Char}
    (h : List.Lex (· < ·) a b) : List.Lex (· < ·) (p ++ a) (p ++ b) := by
  induction p with
  | nil => exact h
  | cons c cs ih => exact List.Lex.cons ih

theorem lex_append_both :
    ∀ {a b : List Char}, a.length = b.length → List.Lex (· < ·) a b →
      ∀ (s t : List Char), List.Lex (· < ·) (a ++ s) (b ++ t) := by
  intro a
  induction a with
  | nil =>
    intro b hlen h s t
    cases h with
    | nil => simp at hlen
  | cons x xs ih =>
    intro b hlen h s t
    cases h with
    | cons h3 => exact List.Lex.cons (ih (by simpa using hlen) h3 s t)
    | rel hxy => exact List.Lex.rel hxy

theorem pad6_data_eq_fixedW {n : Nat} (h : n < 1000000) :
    (pad6 n).data = fixedW 6 n := by
  show List.replicate (6 - (decRepr n).length) '0' ++ decRepr n = fixedW 6 n
  rw [fixedW_eq_padded 6 (by omega) n (by norm_num; omega)]

/-- The zip names written by `_store` grow strictly in lexicographic string
order along the sequence number, as long as at most 999999 chunks are
written. -/
theorem zipName_lt {b1 b2 : List Json} {i j : Nat} (hij : i < j)
    (hj : j ≤ 999999) : (_store b1 i).zipName < (_store b2 j).zipName := by
  show ("data_" ++ pad6 i ++ ".zip" : String) < "data_" ++ pad6 j ++ ".zip"
  rw [String.lt_iff_toList_lt]
  show List.Lex (· < ·) ("data_" ++ pad6 i ++ ".zip").data
    ("data_" ++ pad6 j ++ ".zip").data
  rw [String.data_append, String.data_append, String.data_append,
    String.data_append, List.append_assoc, List.append_assoc]
  apply lex_append_left
  have hi6 : i < 1000000 := by omega
  have hj6 : j < 1000000 := by omega
  rw [pad6_data_eq_fixedW hi6, pad6_data_eq_fixedW hj6]
  exact lex_append_both
    (by rw [fixedW_length, fixedW_length])
    (fixedW_lt 6 i j hij (by norm_num; omega)) _ _

/-- Generalising over the suffix: `data_` names with equal suffixes compare
in strictly increasing string order along the sequence number below one
million. -/
theorem dataName_lt (suffix : String) {i j : Nat} (hij : i < j)
    (hj : j ≤ 999999) :
    ("data_" ++ pad6 i ++ suffix : String) < "data_" ++ pad6 j ++ suffix := by
  rw [String.lt_iff_toList_lt]
  show List.Lex (· < ·) ("data_" ++ pad6 i ++ suffix).data
    ("data_" ++ pad6 j ++ suffix).data
  rw [String.data_append, String.data_append, String.data_append,
    String.data_append, List.append_assoc, List.append_assoc]
  apply lex_append_left
  have hi6 : i < 1000000 := by omega
  have hj6 : j < 1000000 := by omega
  rw [pad6_data_eq_fixedW hi6, pad6_data_eq_fixedW hj6]
  exact lex_append_both
    (by rw [fixedW_length, fixedW_length])
    (fixedW_lt 6 i j hij (by norm_num; omega)) _ _

/-- The archives flushed by `dump`'s loop carry consecutive sequence
numbers starting right after `count`, reflected in any field computed by
`_store` from the sequence number. -/
theorem dumpLoop_map_names {α : Type} (dpf : Nat) (f : Archive → α)
    (g : Nat → α) (hf : ∀ b c, f (_store b c) = g c) :
    ∀ (ds buf : List Json) (count : Nat),
      (dumpLoop dpf ds buf count).map f =
        (List.range' (count + 1) (dumpLoop dpf ds buf count).length).map g := by
  intro ds
  induction ds with
  | nil =>
    intro buf count
    simp only [dumpLoop]
    by_cases h : 0 < buf.length
    · rw [if_pos h]
      simp [hf]
    · rw [if_neg h]
      rfl
  | cons d ds ih =>
    intro buf count
    simp only [dumpLoop]
    by_cases h : dpf ≤ (buf ++ [d]).length
    · rw [if_pos h]
      rw [List.map_cons, hf, ih [] (count + 1)]
      rw [List.length_cons, List.range'_succ, List.map_cons]
    · rw [if_neg h]
      exact ih (buf ++ [d]) count

theorem insertSorted_perm (le : α → α → Bool) (x : α) :
    ∀ l, (insertSorted le x l).Perm (x :: l) := by
  intro l
  induction l with
  | nil => exact List.Perm.refl _
  | cons y ys ih =>
    simp only [insertSorted]
    by_cases h : le x y
    · rw [if_pos h]
    · rw [if_neg h]
      exact (ih.cons y).trans (List.Perm.swap x y ys)

theorem sortBy_perm (le : α → α → Bool) : ∀ l, (sortBy le l).Perm l := by
  intro l
  induction l with
  | nil => exact List.Perm.refl _
  | cons x xs ih =>
    exact (insertSorted_perm le x (sortBy le xs)).trans (ih.cons x)

theorem sortBy_eq_self (le : α → α → Bool) :
    ∀ l, l.Pairwise (fun a b => le a b = true) → sortBy le l = l := by
  intro l
  induction l with
  | nil => intro _; rfl
  | cons x xs ih =>
    intro hp
    rw [List.pairwise_cons] at hp
    show insertSorted le x (sortBy le xs) = x :: xs
    rw [ih hp.2]
    cases xs with
    | nil => rfl
    | cons y ys =>
      show (if le x y then x :: y :: ys else _) = x :: y :: ys
      rw [if_pos (hp.1 y (by simp))]

/-- C7: chunk archives are named `data_{NNNNNN}.zip` with a 1-based
sequence number zero-padded to six digits incrementing by one per chunk,
each containing the single file `data_{NNNNNN}.json` with the same number;
the zip names are produced in strictly increasing sequence order, and for a
dump of at most 999999 chunks that order is also strictly increasing string
order, so `restore`'s sort by filename returns the archives exactly in dump
order. -/
theorem c7_chunk_naming_and_order (docs : List Json) (dpf : Nat) :
    (dumpLoop dpf docs [] 0).map (fun a => a.zipName) =
      (List.range' 1 (dumpLoop dpf docs [] 0).length).map
        (fun s => "data_" ++ pad6 s ++ ".zip") ∧
    (dumpLoop dpf docs [] 0).map (fun a => a.entryName) =
      (List.range' 1 (dumpLoop dpf docs [] 0).length).map
        (fun s => "data_" ++ pad6 s ++ ".json") ∧
    ((dumpLoop dpf docs [] 0).length ≤ 999999 →
      ((dumpLoop dpf docs [] 0).map (fun a => a.zipName)).Pairwise (· < ·) ∧
      sortZips (dumpLoop dpf docs [] 0) = dumpLoop dpf docs [] 0) := by
  have h1 := dumpLoop_map_names dpf (fun a => a.zipName)
    (fun s => "data_" ++ pad6 s ++ ".zip") (fun b c => rfl) docs [] 0
  have h2 := dumpLoop_map_names dpf (fun a => a.entryName)
    (fun s => "data_" ++ pad6 s ++ ".json") (fun b c => rfl) docs [] 0
  refine ⟨h1, h2, fun hk => ?_⟩
  have hpair : ((dumpLoop dpf docs [] 0).map (fun a => a.zipName)).Pairwise
      (· < ·) := by
    rw [h1]
    refine List.pairwise_map.mpr ?_
    refine (List.pairwise_lt_range' 1 (dumpLoop dpf docs [] 0).length).imp_of_mem
      ?_
    intro a b _ hb hab
    have hb' : b ≤ (dumpLoop dpf docs [] 0).length := by
      rcases List.mem_range'.mp hb with ⟨i, hi, rfl⟩
      omega
    exact dataName_lt ".zip" hab (by omega)
  refine ⟨hpair, ?_⟩
  apply sortBy_eq_self
  have hp' := List.pairwise_map.mp hpair
  exact hp'.imp (fun hab => decide_eq_true (le_of_lt hab))

/-- C7, witness: two chunks of one document each are named
`data_000001.zip` and `data_000002.zip`, and restoring sorts them back into
exactly that order. -/
theorem c7_chunk_naming_and_order_witness :
    (dumpLoop 1 [Json.null, Json.null] [] 0).map (fun a => a.zipName) =
      ["data_000001.zip", "data_000002.zip"] ∧
    sortZips (dumpLoop 1 [Json.null, Json.null] [] 0) =
      dumpLoop 1 [Json.null, Json.null] [] 0 := by
  have h := c7_chunk_naming_and_order [Json.null, Json.null] 1
  refine ⟨?_, (h.2.2 (by decide)).2⟩
  rw [h.1]
  rfl

/-! ### Bulk writes against the store model -/

theorem docsOf_esAppend_self :
    ∀ (l : List (String × IndexData)) (i : String) (p : Json),
      docsOf ⟨bulkApply.esAppend l i p⟩ i = docsOf ⟨l⟩ i ++ [p] := by
  intro l i p
  induction l with
  | nil => simp [bulkApply.esAppend, docsOf, esLookup]
  | cons e rest ih =>
    obtain ⟨k, d⟩ := e
    by_cases hk : k = i
    · simp [bulkApply.esAppend, docsOf, esLookup, hk]
    · simp only [bulkApply.esAppend, if_neg hk, docsOf, esLookup]
      exact ih

/-- Loading one batch of documents none of which carries a `_source` key
appends exactly those documents, in order, to the target index. -/
theorem bulk_wrapped_batch :
    ∀ (b : List Json) (n t : String) (es : ESState),
      (∀ d ∈ b, d.hasKey "_source" = false) →
      docsOf (bulkApply es (_gen_bulk b n t)) n = docsOf es n ++ b := by
  intro b
  induction b with
  | nil =>
    intro n t es _
    simp [_gen_bulk, bulkApply]
  | cons d ds ih =>
    intro n t es hb
    have hd := hb d (by simp)
    obtain ⟨g1, g2, g3⟩ := getKey_wrap n t d
    simp only [_gen_bulk, hd, Bool.false_eq_true, if_false]
    simp only [bulkApply, List.foldl_cons, g1, g3]
    have htail := ih n t ⟨bulkApply.esAppend es.indices n d⟩
      (fun e he => hb e (by simp [he]))
    simp only [bulkApply] at htail
    rw [htail]
    rw [docsOf_esAppend_self es.indices n d]
    simp

/-- Loading a list of batches of `_source`-free documents appends their
concatenation to the target index. -/
theorem bulk_fold_batches :
    ∀ (batches : List (List Json)) (n t : String) (es : ESState),
      (∀ b ∈ batches, ∀ d ∈ b, d.hasKey "_source" = false) →
      docsOf ((batches.map (fun b => _gen_bulk b n t)).foldl bulkApply es) n =
        docsOf es n ++ batches.flatten := by
  intro batches
  induction batches with
  | nil =>
    intro n t es _
    simp
  | cons b bs ih =>
    intro n t es hb
    simp only [List.map_cons, List.foldl_cons, List.flatten_cons]
    rw [ih n t (bulkApply es (_gen_bulk b n t))
      (fun b' hb' => hb b' (by simp [hb']))]
    rw [bulk_wrapped_batch b n t es (hb b (by simp))]
    rw [List.append_assoc]

/-- C1 (amended): for every non-empty export whose documents carry no
top-level `_source` field, dumping with any `docs_per_file ≥ 1` and
restoring into an empty target collection succeeds and yields exactly `N`
documents in the target collection, a permutation of (hence payload-set
equal to) the export, with the reported restored count also `N`. -/
theorem c1_round_trip (exportDocs : List Json) (mapping : Json) (dpf : Nat)
    (es : ESState) (st : DumperState) (index_name doc_type : String)
    (h1 : 1 ≤ dpf) (hnil : exportDocs ≠ [])
    (hsrc : ∀ d ∈ exportDocs, d.hasKey "_source" = false)
    (hempty : docsOf es index_name = []) :
    ∃ es' st' reqs cnt,
      restore (fsOfDump ⟨mapping, dumpLoop dpf exportDocs [] 0⟩) es st
          index_name doc_type = .ok (es', st', reqs, cnt) ∧
      (docsOf es' index_name).Perm exportDocs ∧
      (docsOf es' index_name).length = exportDocs.length ∧
      cnt = exportDocs.length := by
  have hbridge : (dumpLoop dpf exportDocs [] 0).map (fun a => a.docs) =
      chunksOf dpf exportDocs := by
    have := dumpLoop_docs_eq_chunksOf h1 exportDocs [] 0 (by simpa using h1)
    simpa using this
  have hflat : ((dumpLoop dpf exportDocs [] 0).map (fun a => a.docs)).flatten =
      exportDocs := by
    rw [hbridge]
    exact chunksOf_flatten dpf exportDocs
  have hzne : dumpLoop dpf exportDocs [] 0 ≠ [] := by
    intro hz
    apply hnil
    rw [← hflat, hz]
    rfl
  have hsortperm : (sortZips (dumpLoop dpf exportDocs [] 0)).Perm
      (dumpLoop dpf exportDocs [] 0) := by
    unfold sortZips
    exact sortBy_perm _ _
  have hlenne : (sortZips (dumpLoop dpf exportDocs [] 0)).length ≠ 0 := by
    rw [hsortperm.length_eq]
    simpa [List.length_eq_zero] using hzne
  have hred : restore (fsOfDump ⟨mapping, dumpLoop dpf exportDocs [] 0⟩) es st
      index_name doc_type =
    .ok
      ((((restoreLoop (sortZips (dumpLoop dpf exportDocs [] 0)) []).1.map
          (fun b => _gen_bulk b index_name doc_type)).foldl bulkApply
        (create_index es st index_name doc_type true (some mapping)).1),
       (create_index es st index_name doc_type true (some mapping)).2,
       (restoreLoop (sortZips (dumpLoop dpf exportDocs [] 0)) []).1.map
          (fun b => _gen_bulk b index_name doc_type),
       ((restoreLoop (sortZips (dumpLoop dpf exportDocs [] 0)) []).1.map
          (fun b => b.length)).sum) := by
    show (if (sortZips (dumpLoop dpf exportDocs [] 0)).length = 0 then
        (.error .noZipFiles : Except RestoreError
          (ESState × DumperState × List (List Json) × Nat))
      else .ok
        ((((restoreLoop (sortZips (dumpLoop dpf exportDocs [] 0)) []).1.map
            (fun b => _gen_bulk b index_name doc_type)).foldl bulkApply
          (create_index es st index_name doc_type true (some mapping)).1),
         (create_index es st index_name doc_type true (some mapping)).2,
         (restoreLoop (sortZips (dumpLoop dpf exportDocs [] 0)) []).1.map
            (fun b => _gen_bulk b index_name doc_type),
         ((restoreLoop (sortZips (dumpLoop dpf exportDocs [] 0)) []).1.map
            (fun b => b.length)).sum)) = _
    rw [if_neg hlenne]
  obtain ⟨hb1, hb2, hb3⟩ :=
    restoreLoop_empty (sortZips (dumpLoop dpf exportDocs [] 0))
  have hflatperm :
      (((sortZips (dumpLoop dpf exportDocs [] 0)).map
        (fun z => z.docs)).flatten).Perm exportDocs := by
    have hp := (hsortperm.map (fun z => z.docs)).flatten
    rw [hflat] at hp
    exact hp
  have hsrc' : ∀ b ∈ (restoreLoop (sortZips (dumpLoop dpf exportDocs [] 0)) []).1,
      ∀ d ∈ b, d.hasKey "_source" = false := by
    rw [hb1]
    intro b hbmem d hd
    obtain ⟨z, hz, rfl⟩ := List.mem_map.mp hbmem
    refine hsrc d ?_
    exact hflatperm.mem_iff.mp (List.mem_flatten.mpr ⟨z.docs,
      List.mem_map_of_mem _ hz, hd⟩)
  have hdocs : docsOf
      ((((restoreLoop (sortZips (dumpLoop dpf exportDocs [] 0)) []).1.map
          (fun b => _gen_bulk b index_name doc_type)).foldl bulkApply
        (create_index es st index_name doc_type true (some mapping)).1))
      index_name =
      ((sortZips (dumpLoop dpf exportDocs [] 0)).map (fun z => z.docs)).flatten := by
    rw [hb1] at hsrc' ⊢
    rw [bulk_fold_batches _ index_name doc_type _ hsrc']
    rw [docsOf_create_index, hempty]
    rfl
  refine ⟨_, _, _, _, hred, ?_, ?_, ?_⟩
  · rw [hdocs]
    exact hflatperm
  · rw [hdocs]
    exact hflatperm.length_eq
  · rw [hb1, List.map_map]
    show (((sortZips (dumpLoop dpf exportDocs [] 0)).map
      (fun z => z.docs.length)).sum) = _
    rw [show ((sortZips (dumpLoop dpf exportDocs [] 0)).map
        (fun z => z.docs.length)) =
      (((sortZips (dumpLoop dpf exportDocs [] 0)).map
        (fun z => z.docs)).map List.length) by rw [List.map_map]; rfl]
    rw [← List.length_flatten]
    exact hflatperm.length_eq

set_option maxRecDepth 8000 in
/-- C1, counterexample: the round trip is NOT payload-preserving for every
export.  Dumping the single normalized document `{"_source": null}` and
restoring it into the empty collection `"i"` succeeds, but the write
request reuses the document verbatim (it has a `_source` key), names no
target collection, and the collection `"i"` ends up with zero documents
instead of one — so restore(dump(export)) is not payload-set-equal to the
export for N = 1. -/
theorem c1_round_trip_counterexample :
    restore (fsOfDump ⟨Json.null,
        dumpLoop 1 [Json.obj [("_source", Json.null)]] [] 0⟩)
      ⟨[]⟩ ⟨"s", "t"⟩ "i" "d"
      = .ok (⟨[("i", ⟨some Json.null, []⟩)]⟩, ⟨"i", "d"⟩,
          [[Json.obj [("_source", Json.null)]]], 1) ∧
    docsOf ⟨[("i", ⟨some Json.null, []⟩)]⟩ "i" = [] ∧
    ([Json.obj [("_source", Json.null)]] : List Json).length = 1 :=
  ⟨rfl, rfl, rfl⟩

/-- C1, witness: three integer documents dumped two per chunk and restored
into empty collection `"i"` come back as exactly three documents, a
permutation of the export. -/
theorem c1_round_trip_witness :
    ∃ es' st' reqs cnt,
      restore (fsOfDump ⟨Json.null,
          dumpLoop 2 [Json.num 1, Json.num 2, Json.num 3] [] 0⟩)
        ⟨[]⟩ ⟨"s", "t"⟩ "i" "d" = .ok (es', st', reqs, cnt) ∧
      (docsOf es' "i").Perm [Json.num 1, Json.num 2, Json.num 3] ∧
      (docsOf es' "i").length = 3 ∧
      cnt = 3 := by
  have h := c1_round_trip [Json.num 1, Json.num 2, Json.num 3] Json.null 2
    ⟨[]⟩ ⟨"s", "t"⟩ "i" "d" (by omega) (by simp)
    (by intro d hd
        simp only [List.mem_cons, List.not_mem_nil, or_false] at hd
        rcases hd with h | h | h <;> (subst h; rfl))
    rfl
  obtain ⟨es', st', reqs, cnt, hr, hp, hl, hc⟩ := h
  exact ⟨es', st', reqs, cnt, hr, hp, by simpa using hl, by simpa using hc⟩
